import Mathlib

/-!
Verification of the `csvfile` repository (`src/csvfile.py`) against its
natural-language specification.  The Python class `CSVFile` is shallowly
embedded: cell values become the inductive `PyVal`, Python exceptions become
the inductive `PyErr` (one constructor per distinct raise site kind), methods
that mutate `self` return the method result together with the state of the
receiver after the call, and fallible code returns `Except`.
-/

set_option autoImplicit false

namespace Csvfile

/-- Decidable equality on `Except`, used to state results about fallible
methods concretely. -/
instance {ε α : Type} [DecidableEq ε] [DecidableEq α] :
    DecidableEq (Except ε α) := fun a b =>
  match a, b with
  | .ok x, .ok y =>
    if h : x = y then .isTrue (by rw [h]) else .isFalse (by simp [h])
  | .error x, .error y =>
    if h : x = y then .isTrue (by rw [h]) else .isFalse (by simp [h])
  | .ok _, .error _ => .isFalse (by simp)
  | .error _, .ok _ => .isFalse (by simp)

/-- Python floating point values, abstracted: finite floats are modelled as
exact rationals (IEEE-754 rounding is not modelled; none of the verified
properties depend on rounding), plus the two infinities and NaN. -/
inductive PyFloat where
  | finite (q : ℚ)
  | inf (neg : Bool)
  | nan
  deriving DecidableEq

/-- A Python cell value as produced by parsing and `_auto_cast`:
int, float, bool, str, or `None`. -/
inductive PyVal where
  | vInt (n : Int)
  | vFloat (f : PyFloat)
  | vBool (b : Bool)
  | vStr (s : String)
  | vNone
  deriving DecidableEq

/-- The Python exceptions raised by `csvfile.py`, distinguished by raise site
kind: `IndexError` (row/list index), `KeyError` (unknown header name),
`TypeError` (bad dynamic type, incomparable types), and the three distinct
`ValueError` messages (no header, unsupported operator, mixed dict keys). -/
inductive PyErr where
  | indexError
  | keyError
  | typeError
  | valueErrorNoHeader
  | valueErrorUnsupportedOp
  | valueErrorMixedKeys
  deriving DecidableEq

/-- Numeric view of a Python value: `int`, `bool` (as 0/1) and `float` are
mutually comparable numbers in Python. -/
inductive NumF where
  | fin (q : ℚ)
  | pinf
  | ninf
  | nan
  deriving DecidableEq

/-- The numeric view of a value, `none` for `str` and `None`. -/
def numOf : PyVal → Option NumF
  | .vInt n => some (.fin n)
  | .vBool b => some (.fin (if b then 1 else 0))
  | .vFloat (.finite q) => some (.fin q)
  | .vFloat (.inf neg) => some (if neg then .ninf else .pinf)
  | .vFloat .nan => some .nan
  | .vStr _ => none
  | .vNone => none

/-- Comparison of numeric views; `none` when NaN is involved (every Python
comparison with NaN is false). -/
def numCmp : NumF → NumF → Option Ordering
  | .nan, _ => none
  | .fin _, .nan => none
  | .pinf, .nan => none
  | .ninf, .nan => none
  | .fin a, .fin b => some (if a < b then .lt else if b < a then .gt else .eq)
  | .fin _, .pinf => some .lt
  | .fin _, .ninf => some .gt
  | .pinf, .fin _ => some .gt
  | .pinf, .pinf => some .eq
  | .pinf, .ninf => some .gt
  | .ninf, .fin _ => some .lt
  | .ninf, .pinf => some .lt
  | .ninf, .ninf => some .eq

/-- Lexicographic comparison of character lists by code point, Python's
`str` ordering. -/
def charListLt : List Char → List Char → Bool
  | [], [] => false
  | [], _ :: _ => true
  | _ :: _, [] => false
  | a :: as, b :: bs =>
    if a.toNat < b.toNat then true
    else if b.toNat < a.toNat then false
    else charListLt as bs

/-- Python `==` on cell values: numbers (int/bool/float) compare numerically
across types, strings compare as strings, `None == None`, everything else is
unequal (never an error). -/
def pyEqB (a b : PyVal) : Bool :=
  match numOf a, numOf b with
  | some x, some y => numCmp x y = some .eq
  | _, _ =>
    match a, b with
    | .vStr s, .vStr t => s = t
    | .vNone, .vNone => true
    | _, _ => false

/-- Python `<`: numeric for numbers, lexicographic for strings, `TypeError`
for any other combination. -/
def pyLtE (a b : PyVal) : Except PyErr Bool :=
  match numOf a, numOf b with
  | some x, some y => .ok (numCmp x y = some .lt)
  | _, _ =>
    match a, b with
    | .vStr s, .vStr t => .ok (charListLt s.data t.data)
    | _, _ => .error .typeError

/-- Python `>`. -/
def pyGtE (a b : PyVal) : Except PyErr Bool :=
  match numOf a, numOf b with
  | some x, some y => .ok (numCmp x y = some .gt)
  | _, _ =>
    match a, b with
    | .vStr s, .vStr t => .ok (charListLt t.data s.data)
    | _, _ => .error .typeError

/-- Python `>=` (false for NaN operands, like every NaN comparison). -/
def pyGeE (a b : PyVal) : Except PyErr Bool :=
  match numOf a, numOf b with
  | some x, some y => .ok (numCmp x y = some .gt ∨ numCmp x y = some .eq)
  | _, _ =>
    match a, b with
    | .vStr s, .vStr t => .ok (!charListLt s.data t.data)
    | _, _ => .error .typeError

/-- Python `<=`. -/
def pyLeE (a b : PyVal) : Except PyErr Bool :=
  match numOf a, numOf b with
  | some x, some y => .ok (numCmp x y = some .lt ∨ numCmp x y = some .eq)
  | _, _ =>
    match a, b with
    | .vStr s, .vStr t => .ok (!charListLt t.data s.data)
    | _, _ => .error .typeError

/-- Python `str.strip()`: drop whitespace from both ends. -/
def pyStrip (s : String) : String :=
  String.mk (((s.data.dropWhile Char.isWhitespace).reverse.dropWhile
    Char.isWhitespace).reverse)

/-- Python `str.lower()` (ASCII case folding suffices for the cells and
operator tags involved). -/
def pyLower (s : String) : String :=
  String.mk (s.data.map Char.toLower)

/-- Python `str.startswith`. -/
def strStartsWith (s t : String) : Bool :=
  t.data.isPrefixOf s.data

/-- Python `str.endswith`. -/
def strEndsWith (s t : String) : Bool :=
  t.data.reverse.isPrefixOf s.data.reverse

/-- `sub` occurs somewhere in `hay` (Python's `in` on strings). -/
def strContains (hay sub : String) : Bool :=
  (List.range (hay.data.length + 1)).any
    (fun i => sub.data.isPrefixOf (hay.data.drop i))

/-- Python `a in b` for cell values: `b` must be a string (the only container
kind a cell can hold), `a` must then also be a string (substring test);
anything else is a `TypeError`. -/
def pyInE (a b : PyVal) : Except PyErr Bool :=
  match b with
  | .vStr s =>
    match a with
    | .vStr t => .ok (strContains s t)
    | _ => .error .typeError
  | _ => .error .typeError

/-- Rendering of a Python float by `str`.  The exact textual form of finite
floats is an abstraction of CPython's `repr` (none of the verified claims
evaluates it); infinities and NaN use Python's literal forms. -/
def pyFloatRepr : PyFloat → String
  | .finite q => if q.den = 1 then toString q.num ++ ".0" else toString q
  | .inf neg => if neg then "-inf" else "inf"
  | .nan => "nan"

/-- Python `str()` of a cell value; booleans render as `True`/`False`. -/
def pyStr : PyVal → String
  | .vInt n => toString n
  | .vFloat f => pyFloatRepr f
  | .vBool b => if b then "True" else "False"
  | .vStr s => s
  | .vNone => "None"

/-- Python `row[i]` on a list: negative indices wrap once from the end,
anything still out of range raises `IndexError`. -/
def pyGetItem (row : List PyVal) (i : Int) : Except PyErr PyVal :=
  let j := if i < 0 then i + row.length else i
  if 0 ≤ j ∧ j < (row.length : Int) then .ok (row.getD j.toNat .vNone)
  else .error .indexError

/-- Python `row[i] = v` on a list: same index arithmetic as `pyGetItem`;
the element is replaced in place (modelled as returning the updated list). -/
def pySetItem (row : List PyVal) (i : Int) (v : PyVal) : Except PyErr (List PyVal) :=
  let j := if i < 0 then i + row.length else i
  if 0 ≤ j ∧ j < (row.length : Int) then .ok (row.set j.toNat v)
  else .error .indexError

/-! ## Value Caster (`_auto_cast`, `csvfile.py` lines 27-48) -/

/-- Python `str.isdigit` restricted to the ASCII digits that appear in
delimited text files: nonempty and all characters `0`-`9`. -/
def pyIsDigit (s : String) : Bool :=
  !s.data.isEmpty && s.data.all Char.isDigit

/-- The source's integer guard
`v.isdigit() or (v.startswith("-") and v[1:].isdigit())`, with the
minus-prefixed case expressed on the character list. -/
def intGuard (v : String) : Bool :=
  pyIsDigit v ||
    (match v.data with
     | c :: rest => c = '-' && (!rest.isEmpty && rest.all Char.isDigit)
     | [] => false)

/-- Numeric value of a list of ASCII digit characters. -/
def natOfDigits (ds : List Char) : Nat :=
  ds.foldl (fun a c => a * 10 + (c.toNat - 48)) 0

/-- Python `int(v)` on the strings that pass the source's integer guard:
an optional leading minus followed by digits. -/
def pyIntParse (s : String) : Option Int :=
  match s.data with
  | [] => none
  | c :: rest =>
    if c = '-' then
      if !rest.isEmpty && rest.all Char.isDigit then
        some (-(natOfDigits rest : Int))
      else none
    else if (c :: rest).all Char.isDigit then
      some ((natOfDigits (c :: rest) : Nat) : Int)
    else none

/-- Greedy scan of a digit group with Python's underscore separators:
consumes digits, and an underscore only when it sits between two digits.
Returns the digits collected (separators dropped) and the unconsumed rest. -/
def digitsUndGo (acc : List Char) : List Char → List Char × List Char
  | [] => (acc, [])
  | c :: rest =>
    if c.isDigit then digitsUndGo (acc ++ [c]) rest
    else if c = '_' then
      match rest with
      | d :: rest2 =>
        if !acc.isEmpty && d.isDigit then digitsUndGo (acc ++ [d]) rest2
        else (acc, c :: rest)
      | [] => (acc, [c])
    else (acc, c :: rest)

/-- Strips one optional sign, returning whether it was a minus. -/
def stripSign : List Char → Bool × List Char
  | '+' :: cs => (false, cs)
  | '-' :: cs => (true, cs)
  | cs => (false, cs)

/-- Mantissa and exponent assembled into an exact rational. -/
def ratOfParts (neg : Bool) (intDs fracDs : List Char) (eneg : Bool)
    (expDs : List Char) : ℚ :=
  let mant : ℚ := (natOfDigits (intDs ++ fracDs) : ℚ) / (10 : ℚ) ^ fracDs.length
  let ex : ℤ := if eneg then -(natOfDigits expDs : ℤ) else (natOfDigits expDs : ℤ)
  (if neg then -1 else 1) * mant * (10 : ℚ) ^ ex

/-- Model of Python `float(v)` on an already-stripped string: optional sign,
then case-insensitive `inf`/`infinity`/`nan`, or a decimal literal
`digits [. digits] [e sign digits]` with at least one mantissa digit and
underscore separators between digits.  Finite results are exact rationals. -/
def pyFloatParse (s : String) : Option PyFloat :=
  let (neg, cs1) := stripSign s.data
  let low := String.mk (cs1.map Char.toLower)
  if low = "inf" ∨ low = "infinity" then some (.inf neg)
  else if low = "nan" then some .nan
  else
    let (intDs, r1) := digitsUndGo [] cs1
    let (fracDs, r2) :=
      match r1 with
      | '.' :: rest => digitsUndGo [] rest
      | _ => ([], r1)
    if intDs.isEmpty && fracDs.isEmpty then none
    else
      match r2 with
      | [] => some (.finite (ratOfParts neg intDs fracDs false []))
      | e :: rest =>
        if e = 'e' ∨ e = 'E' then
          let (eneg, rest1) := stripSign rest
          let (expDs, r3) := digitsUndGo [] rest1
          if expDs.isEmpty ∨ !r3.isEmpty then none
          else some (.finite (ratOfParts neg intDs fracDs eneg expDs))
        else none

/-- The float-then-bool-then-string tail of `_auto_cast` (reached directly,
or through the unreachable `except` of the integer parse). -/
def autoCastTail (v : String) : PyVal :=
  match pyFloatParse v with
  | some fl => .vFloat fl
  | none =>
    let lowerV := pyLower v
    if lowerV = "true" ∨ lowerV = "false" then .vBool (lowerV = "true")
    else .vStr v

/-- `CSVFile._auto_cast` (lines 27-48): `None` passes through; otherwise the
stripped string is cast through the precedence chain int, float, bool, and
finally the stripped string itself. -/
def _auto_cast (value : Option String) : PyVal :=
  match value with
  | none => .vNone
  | some str =>
    let v := pyStrip str
    if v = "" then .vStr ""
    else if intGuard v then
      match pyIntParse v with
      | some n => .vInt n
      | none => autoCastTail v
    else autoCastTail v

/-! ## Delimiter Detector (`_detect_delimiter`, lines 64-76) -/

/-- One step of the quoted-CSV split of a single line (model of stdlib
`csv.reader` with `quotechar='"'` on input without embedded newlines):
`inQ` tells whether the scan is inside a quoted section; `cur` is the field
being built.  A doubled quote inside quotes is a literal quote. -/
def csvSplitGo (delim : Char) : List Char → Bool → List Char → List String → List String
  | [], _, cur, acc => acc ++ [String.mk cur]
  | '"' :: '"' :: rest2, true, cur, acc => csvSplitGo delim rest2 true (cur ++ ['"']) acc
  | c :: rest, true, cur, acc =>
    if c = '"' then csvSplitGo delim rest false cur acc
    else csvSplitGo delim rest true (cur ++ [c]) acc
  | c :: rest, false, cur, acc =>
    if c = delim then csvSplitGo delim rest false [] (acc ++ [String.mk cur])
    else if c = '"' then csvSplitGo delim rest true cur acc
    else csvSplitGo delim rest false (cur ++ [c]) acc

/-- Parses one decoded line into a record; an empty line yields the empty
record, as `csv.reader` does. -/
def pyCsvSplitLine (delim : Char) (line : String) : List String :=
  match line.data with
  | [] => []
  | cs => csvSplitGo delim cs false [] []

/-- Multiplicity of the most frequent element, i.e. the `freq` in
`Counter(lengths).most_common(1)[0]`; zero only for the empty list. -/
def maxMultiplicity (l : List Nat) : Nat :=
  (l.map (fun x => l.count x)).foldr max 0

/-- Score of one candidate delimiter (lines 66-73): split every line, keep
the lengths of the non-empty records, and score by the frequency of the most
common length; `none` (candidate skipped) when no record remains or when the
candidate is not a single character (`csv.reader` rejects it and the
`except` clause skips the candidate). -/
def candidateScore (lines : List String) (delim : String) : Option Nat :=
  match delim.data with
  | [c] =>
    let lengths :=
      ((lines.map (pyCsvSplitLine c)).filter (fun r => !r.isEmpty)).map List.length
    if lengths.isEmpty then none else some (maxMultiplicity lengths)
  | _ => none

/-- The `scores` dict as an insertion-ordered association list.  A duplicated
candidate re-inserts the identical recomputed score; under first-maximum
selection this is observationally the dict's overwrite-in-place, since
neither the maximal value nor the first pair attaining it changes. -/
def scoresFor (lines : List String) (cands : List String) : List (String × Nat) :=
  cands.filterMap (fun c => (candidateScore lines c).map (fun sc => (c, sc)))

/-- Model of Python `max(scores, key=scores.get)` over the insertion-ordered
dict: the first entry whose value is maximal (`max` keeps the first maximal
item it encounters). -/
def pyMaxByVal : List (String × Nat) → Option (String × Nat)
  | [] => none
  | p :: rest =>
    match pyMaxByVal rest with
    | none => some p
    | some q => if q.2 ≤ p.2 then some p else some q

/-- `CSVFile._detect_delimiter` (lines 64-76): score the candidates, pick the
first highest-scoring one, and default to a comma when nothing scored. -/
def _detect_delimiter (lines : List String) (cands : List String) : String :=
  match pyMaxByVal (scoresFor lines cands) with
  | some p => p.1
  | none => ","

/-! ## The Document (`class CSVFile`) -/

/-- The in-memory state of a `CSVFile` object after loading: configuration,
detected encoding and delimiter, header and mutable row store. -/
structure CSVFile where
  path : String
  candidates : List String
  has_header : Bool
  skip_empty : Bool
  auto_cast : Bool
  normalize_header : Bool
  encoding : String
  delimiter : String
  header : List String
  rows : List (List PyVal)
  deriving DecidableEq

/-- A column identifier: a header name (str) or a positional index (int). -/
inductive ColIdent where
  | name (s : String)
  | idx (i : Int)
  deriving DecidableEq

/-- Position of the first exact match, Python's `list.index` as an option. -/
def listIndexOf (l : List String) (s : String) : Option Nat :=
  match l with
  | [] => none
  | x :: xs => if x = s then some 0 else (listIndexOf xs s).map (· + 1)

/-- `CSVFile._get_expected_columns_count` (lines 96-103): header length when a
header is configured, else the first row's length, else zero. -/
def _get_expected_columns_count (f : CSVFile) : Nat :=
  if f.has_header then f.header.length
  else
    match f.rows with
    | r :: _ => r.length
    | [] => 0

/-- `CSVFile._adjust_columns` (lines 105-119): pad a short row with empty
strings, truncate a long one, return an exact-length one unchanged. -/
def _adjust_columns (data : List PyVal) (expected : Nat) : List PyVal :=
  if data.length < expected then
    data ++ List.replicate (expected - data.length) (PyVal.vStr "")
  else if expected < data.length then data.take expected
  else data

/-- `CSVFile._get_column_index` (lines 121-132): a name requires a header
(`ValueError` otherwise) and must be present (`KeyError` otherwise), and
resolves to its first exact match; an int is returned as-is, unchecked. -/
def _get_column_index (f : CSVFile) : ColIdent → Except PyErr Int
  | .name s =>
    if f.has_header = false then .error .valueErrorNoHeader
    else if f.header.contains s = false then .error .keyError
    else
      match listIndexOf f.header s with
      | some i => .ok i
      | none => .error .keyError
  | .idx i => .ok i

/-! ## Filter methods (lines 135-291)

Filters never write to `self`; their embeddings return the produced value
together with the receiver's state after the call, like the mutators, so
that the frame property is a statement and not a convention. -/

/-- The list comprehension of `filter_rows` (line 146): evaluates the
condition on each row in order with its positional index, propagating the
first exception. -/
def filterRowsAux (cond : List PyVal → Nat → Except PyErr Bool) :
    List (List PyVal) → Nat → Except PyErr (List (List PyVal))
  | [], _ => .ok []
  | r :: rs, i =>
    match cond r i with
    | .error e => .error e
    | .ok b =>
      match filterRowsAux cond rs (i + 1) with
      | .error e => .error e
      | .ok rest => .ok (if b then r :: rest else rest)

/-- `CSVFile.filter_rows` (lines 135-161): a new document sharing path,
candidates, flags, encoding, delimiter and a copy of the header, holding the
rows satisfying the condition. -/
def filter_rows (f : CSVFile) (cond : List PyVal → Nat → Except PyErr Bool) :
    Except PyErr CSVFile × CSVFile :=
  match filterRowsAux cond f.rows 0 with
  | .ok kept => (.ok { f with rows := kept }, f)
  | .error e => (.error e, f)

/-- The closure `condition` of `filter_by_column` (lines 177-206): a row too
short for the resolved index is non-matching; otherwise the cell is compared
with the requested operator, and an unknown operator raises `ValueError`. -/
def fbcCondition (ci : Int) (value : PyVal) (op : String)
    (row : List PyVal) (_i : Nat) : Except PyErr Bool :=
  if (row.length : Int) ≤ ci then .ok false
  else
    match pyGetItem row ci with
    | .error e => .error e
    | .ok cell =>
      if op = "==" then .ok (pyEqB cell value)
      else if op = "!=" then .ok (!pyEqB cell value)
      else if op = ">" then pyGtE cell value
      else if op = "<" then pyLtE cell value
      else if op = ">=" then pyGeE cell value
      else if op = "<=" then pyLeE cell value
      else if op = "in" then pyInE cell value
      else if op = "not in" then (pyInE cell value).map (fun b => !b)
      else if op = "contains" then pyInE value (.vStr (pyStr cell))
      else if op = "startswith" then .ok (strStartsWith (pyStr cell) (pyStr value))
      else if op = "endswith" then .ok (strEndsWith (pyStr cell) (pyStr value))
      else .error .valueErrorUnsupportedOp

/-- `CSVFile.filter_by_column` (lines 163-208): resolve the column once, then
filter with the comparison closure. -/
def filter_by_column (f : CSVFile) (cid : ColIdent) (value : PyVal)
    (op : String) : Except PyErr CSVFile × CSVFile :=
  match _get_column_index f cid with
  | .error e => (.error e, f)
  | .ok ci => filter_rows f (fbcCondition ci value op)

/-- One condition of `filter_multiple`: a callable or a structured triple. -/
inductive Cond where
  | callable (p : List PyVal → Nat → Except PyErr Bool)
  | triple (cid : ColIdent) (value : PyVal) (op : String)

/-- Evaluation of one structured triple inside `combined_condition`
(lines 253-288): resolve, treat a too-short row as failing, then run the
operator chain — which has no final `else`, so an unknown operator tag
falls through and the triple passes. -/
def fmTripleEval (f : CSVFile) (cid : ColIdent) (value : PyVal) (op : String)
    (row : List PyVal) : Except PyErr Bool :=
  match _get_column_index f cid with
  | .error e => .error e
  | .ok ci =>
    if (row.length : Int) ≤ ci then .ok false
    else
      match pyGetItem row ci with
      | .error e => .error e
      | .ok cell =>
        if op = "==" then .ok (pyEqB cell value)
        else if op = "!=" then .ok (!pyEqB cell value)
        else if op = ">" then pyGtE cell value
        else if op = "<" then pyLtE cell value
        else if op = ">=" then pyGeE cell value
        else if op = "<=" then pyLeE cell value
        else if op = "in" then pyInE cell value
        else if op = "not in" then (pyInE cell value).map (fun b => !b)
        else if op = "contains" then pyInE value (.vStr (pyStr cell))
        else .ok true

/-- `combined_condition` of `filter_multiple` (lines 246-289): AND over the
conditions in order, short-circuiting at the first failing one. -/
def fmCombined (f : CSVFile) (conds : List Cond) (row : List PyVal)
    (i : Nat) : Except PyErr Bool :=
  match conds with
  | [] => .ok true
  | c :: rest =>
    let r :=
      match c with
      | .callable p => p row i
      | .triple cid value op => fmTripleEval f cid value op row
    match r with
    | .error e => .error e
    | .ok false => .ok false
    | .ok true => fmCombined f rest row i

/-- `CSVFile.filter_multiple` (lines 235-291). -/
def filter_multiple (f : CSVFile) (conds : List Cond) :
    Except PyErr CSVFile × CSVFile :=
  filter_rows f (fmCombined f conds)

/-! ## Mutation engine (`update_row` lines 309-359, `update_cell` 361-386) -/

/-- A key of a field-map update: a positional int or a header name. -/
inductive DKey where
  | ik (i : Int)
  | sk (s : String)
  deriving DecidableEq

/-- Is the key an int key? (`isinstance(k, int)`). -/
def isIk : DKey → Bool
  | .ik _ => true
  | .sk _ => false

/-- Is the key a str key? (`isinstance(k, str)`). -/
def isSk : DKey → Bool
  | .sk _ => true
  | .ik _ => false

/-- The dynamic type of `new_data`: a dict (insertion-ordered key/value
pairs), a list, or any other object (which `update_row` rejects). -/
inductive NewData where
  | dmap (items : List (DKey × PyVal))
  | dlist (data : List PyVal)
  | other

/-- The int-key loop of `update_row` (lines 330-338) over the copied row:
in-range keys are assigned; a key beyond the end first extends the copy with
empty strings; a negative key is Python list assignment, wrapping from the
end and raising `IndexError` when still out of range.  A str key cannot
occur on this path (the mixed-key check ran first); Python indexing a list
with a str would raise `TypeError`. -/
def intKeyApply : List PyVal → List (DKey × PyVal) → Except PyErr (List PyVal)
  | row, [] => .ok row
  | row, (k, v) :: rest =>
    match k with
    | .ik ci =>
      if 0 ≤ ci ∧ ci < (row.length : Int) then
        intKeyApply (row.set ci.toNat v) rest
      else
        let row1 :=
          if (row.length : Int) ≤ ci then
            row ++ List.replicate (ci - row.length + 1).toNat (PyVal.vStr "")
          else row
        match pySetItem row1 ci v with
        | .ok row2 => intKeyApply row2 rest
        | .error e => .error e
    | .sk _ => .error .typeError

/-- The name-key loop of `update_row` (lines 344-351) over the copied row:
a name present in the header is assigned at its first-match position (an
`IndexError` if the row is shorter); an absent name — or an int key, which
is never contained in a list of strings — is skipped with a warning. -/
def nameKeyApply (header : List String) :
    List PyVal → List (DKey × PyVal) → Except PyErr (List PyVal)
  | row, [] => .ok row
  | row, (k, v) :: rest =>
    match k with
    | .sk s =>
      if header.contains s then
        match listIndexOf header s with
        | some ci =>
          match pySetItem row (ci : Int) v with
          | .ok row2 => nameKeyApply header row2 rest
          | .error e => .error e
        | none => nameKeyApply header row rest
      else nameKeyApply header row rest
    | .ik _ => nameKeyApply header row rest

/-- `CSVFile.update_row` (lines 309-359).  All edits are built on a copy of
the stored row (`self.rows[index][:]`); `self.rows` is written only by the
final assignment of a successful branch, so the receiver state is unchanged
on every error path. -/
def update_row (f : CSVFile) (index : Int) (nd : NewData) :
    Except PyErr Unit × CSVFile :=
  if index < 0 ∨ (f.rows.length : Int) ≤ index then (.error .indexError, f)
  else
    let expected := _get_expected_columns_count f
    let i := index.toNat
    let row := f.rows.getD i []
    match nd with
    | .dmap items =>
      if f.has_header then
        let hasInt := items.any (fun kv => isIk kv.1)
        let hasStr := items.any (fun kv => isSk kv.1)
        if hasInt ∧ hasStr then (.error .valueErrorMixedKeys, f)
        else if hasInt then
          match intKeyApply row items with
          | .ok updated =>
            (.ok (), { f with rows := f.rows.set i (_adjust_columns updated expected) })
          | .error e => (.error e, f)
        else
          match nameKeyApply f.header row items with
          | .ok updated => (.ok (), { f with rows := f.rows.set i updated })
          | .error e => (.error e, f)
      else (.error .typeError, f)
    | .dlist data =>
      (.ok (), { f with rows := f.rows.set i (_adjust_columns data expected) })
    | .other => (.error .typeError, f)

/-- `CSVFile.update_cell` (lines 361-386).  For an int identifier at or past
the expected column count the source first extends the stored row in place,
then reconciles it back with `_adjust_columns`, and only then assigns the
cell — so the receiver may already be mutated when the assignment raises. -/
def update_cell (f : CSVFile) (row_index : Int) (cid : ColIdent)
    (value : PyVal) : Except PyErr Unit × CSVFile :=
  if row_index < 0 ∨ (f.rows.length : Int) ≤ row_index then (.error .indexError, f)
  else
    let i := row_index.toNat
    match cid with
    | .name s =>
      if f.has_header = false then (.error .valueErrorNoHeader, f)
      else if f.header.contains s = false then (.error .keyError, f)
      else
        match listIndexOf f.header s with
        | some ci =>
          match pySetItem (f.rows.getD i []) (ci : Int) value with
          | .ok row2 => (.ok (), { f with rows := f.rows.set i row2 })
          | .error e => (.error e, f)
        | none => (.error .keyError, f)
    | .idx ci =>
      let expected := _get_expected_columns_count f
      if (expected : Int) ≤ ci then
        let row := f.rows.getD i []
        let row1 := row ++ List.replicate (ci - row.length + 1).toNat (PyVal.vStr "")
        let row2 := _adjust_columns row1 expected
        let f1 := { f with rows := f.rows.set i row2 }
        match pySetItem row2 ci value with
        | .ok row3 => (.ok (), { f1 with rows := f1.rows.set i row3 })
        | .error e => (.error e, f1)
      else
        match pySetItem (f.rows.getD i []) ci value with
        | .ok row2 => (.ok (), { f with rows := f.rows.set i row2 })
        | .error e => (.error e, f)

/-! ## Helper lemmas -/

theorem adjust_columns_length (d : List PyVal) (e : Nat) :
    (_adjust_columns d e).length = e := by
  simp only [_adjust_columns]
  split_ifs with h1 h2
  · simp only [List.length_append, List.length_replicate]; omega
  · simp only [List.length_take]; omega
  · omega

theorem getD_set_self {α : Type} :
    ∀ (l : List α) (n : Nat) (a d : α), n < l.length →
      (l.set n a).getD n d = a
  | _ :: _, 0, _, _, _ => rfl
  | _ :: xs, n + 1, a, d, h => getD_set_self xs n a d (by simpa using h)
  | [], _, _, _, h => absurd h (by simp)

theorem pySetItem_length {row : List PyVal} {i : Int} {v : PyVal}
    {row2 : List PyVal} (h : pySetItem row i v = .ok row2) :
    row2.length = row.length := by
  simp only [pySetItem] at h
  split at h
  all_goals split at h
  all_goals first | (cases h; simp) | cases h

theorem pySetItem_nat_ok {row : List PyVal} {n : Nat} {v : PyVal}
    (h : n < row.length) :
    pySetItem row (n : Int) v = .ok (row.set n v) := by
  simp only [pySetItem]
  have h0 : ¬((n : Int) < 0) := by omega
  rw [if_neg h0]
  rw [if_pos (by constructor <;> omega)]
  simp

theorem pySetItem_nat_err {row : List PyVal} {n : Nat} {v : PyVal}
    (h : row.length ≤ n) :
    pySetItem row (n : Int) v = .error .indexError := by
  simp only [pySetItem]
  have h0 : ¬((n : Int) < 0) := by omega
  rw [if_neg h0]
  rw [if_neg (by omega)]

theorem listIndexOf_append_cons (s : String) :
    ∀ (pre post : List String), s ∉ pre →
      listIndexOf (pre ++ s :: post) s = some pre.length := by
  intro pre
  induction pre with
  | nil => intro post _; simp [listIndexOf]
  | cons x xs ih =>
    intro post hnot
    have hx : ¬(x = s) := by
      intro h; exact hnot (by simp [h])
    have htail : s ∉ xs := fun h => hnot (List.mem_cons_of_mem _ h)
    show listIndexOf (x :: (xs ++ s :: post)) s = some (xs.length + 1)
    simp [listIndexOf, if_neg hx, ih post htail]

theorem mem_of_listIndexOf {l : List String} {s : String} {i : Nat}
    (h : listIndexOf l s = some i) : s ∈ l := by
  induction l generalizing i with
  | nil => simp [listIndexOf] at h
  | cons x xs ih =>
    simp only [listIndexOf] at h
    by_cases hx : x = s
    · simp [hx]
    · rw [if_neg hx] at h
      cases hio : listIndexOf xs s with
      | none => rw [hio] at h; simp at h
      | some j => exact List.mem_cons_of_mem _ (ih hio)

theorem listIndexOf_isSome_of_mem {l : List String} {s : String}
    (h : s ∈ l) : ∃ i, listIndexOf l s = some i := by
  induction l with
  | nil => simp at h
  | cons x xs ih =>
    by_cases hx : x = s
    · exact ⟨0, by simp [listIndexOf, hx]⟩
    · have hh : s ∈ xs := by
        rcases List.mem_cons.mp h with h1 | h1
        · exact absurd h1.symm hx
        · exact h1
      obtain ⟨j, hj⟩ := ih hh
      exact ⟨j + 1, by simp [listIndexOf, if_neg hx, hj]⟩

theorem listIndexOf_lt_length {l : List String} {s : String} {i : Nat}
    (h : listIndexOf l s = some i) : i < l.length := by
  induction l generalizing i with
  | nil => simp [listIndexOf] at h
  | cons x xs ih =>
    simp only [listIndexOf] at h
    by_cases hx : x = s
    · rw [if_pos hx] at h; cases h; simp
    · rw [if_neg hx] at h
      cases hio : listIndexOf xs s with
      | none => rw [hio] at h; simp at h
      | some j =>
        rw [hio] at h
        have hji := ih hio
        have : j + 1 = i := by simpa using h
        simp only [List.length_cons]
        omega

theorem filterRowsAux_ok_mem
    {cond : List PyVal → Nat → Except PyErr Bool} :
    ∀ {rows : List (List PyVal)} {i : Nat} {kept : List (List PyVal)},
      filterRowsAux cond rows i = .ok kept →
      ∀ r ∈ kept, ∃ j, cond r j = .ok true := by
  intro rows
  induction rows with
  | nil =>
    intro i kept h r hr
    simp only [filterRowsAux] at h
    cases h
    simp at hr
  | cons r0 rs ih =>
    intro i kept h r hr
    simp only [filterRowsAux] at h
    cases hc : cond r0 i with
    | error e => rw [hc] at h; cases h
    | ok b =>
      rw [hc] at h
      cases haux : filterRowsAux cond rs (i + 1) with
      | error e => rw [haux] at h; cases h
      | ok rest =>
        rw [haux] at h
        cases h
        cases b with
        | true =>
          rcases List.mem_cons.mp (by simpa using hr) with h1 | h1
          · exact ⟨i, by rw [h1]; exact hc⟩
          · exact ih haux r h1
        | false => exact ih haux r (by simpa using hr)

theorem fbcCondition_true_bound {ci : Int} {value : PyVal} {op : String}
    {row : List PyVal} {i : Nat}
    (h : fbcCondition ci value op row i = .ok true) :
    ci < (row.length : Int) := by
  by_contra hge
  simp only [fbcCondition] at h
  rw [if_pos (by omega)] at h
  cases h

theorem fmTripleEval_true_bound {f : CSVFile} {cid : ColIdent}
    {value : PyVal} {op : String} {row : List PyVal} {ci : Int}
    (hres : _get_column_index f cid = .ok ci)
    (h : fmTripleEval f cid value op row = .ok true) :
    ci < (row.length : Int) := by
  by_contra hge
  simp only [fmTripleEval, hres] at h
  rw [if_pos (by omega)] at h
  cases h

theorem fmCombined_true_of_mem {f : CSVFile} :
    ∀ {conds : List Cond} {row : List PyVal} {i : Nat},
      fmCombined f conds row i = .ok true →
      ∀ {cid : ColIdent} {value : PyVal} {op : String},
        Cond.triple cid value op ∈ conds →
        fmTripleEval f cid value op row = .ok true := by
  intro conds
  induction conds with
  | nil => intro row i _ cid value op hmem; simp at hmem
  | cons c rest ih =>
    intro row i h cid value op hmem
    simp only [fmCombined] at h
    rcases List.mem_cons.mp hmem with h1 | h1
    · subst h1
      have h' : (match fmTripleEval f cid value op row with
          | Except.error e => Except.error e
          | Except.ok false => Except.ok false
          | Except.ok true => fmCombined f rest row i) = Except.ok true := h
      cases he : fmTripleEval f cid value op row with
      | error e => rw [he] at h'; cases h'
      | ok b =>
        cases b with
        | true => rfl
        | false => rw [he] at h'; cases h'
    · cases he : (match c with
        | Cond.callable p => p row i
        | Cond.triple cid' value' op' => fmTripleEval f cid' value' op' row) with
      | error e => rw [he] at h; cases h
      | ok b =>
        rw [he] at h
        cases b with
        | true => exact ih h h1
        | false => cases h

theorem pyMaxByVal_eq_none_iff {l : List (String × Nat)} :
    pyMaxByVal l = none ↔ l = [] := by
  cases l with
  | nil => simp [pyMaxByVal]
  | cons p rest =>
    simp only [pyMaxByVal]
    constructor
    · intro h
      cases hr : pyMaxByVal rest with
      | none => rw [hr] at h; cases h
      | some q =>
        rw [hr] at h
        have h2 : (if q.2 ≤ p.2 then some p else some q) = none := h
        by_cases hle : q.2 ≤ p.2
        · rw [if_pos hle] at h2; cases h2
        · rw [if_neg hle] at h2; cases h2
    · intro h; cases h

theorem pyMaxByVal_mem :
    ∀ {l : List (String × Nat)} {q : String × Nat},
      pyMaxByVal l = some q → q ∈ l := by
  intro l
  induction l with
  | nil => intro q h; cases h
  | cons p rest ih =>
    intro q h
    simp only [pyMaxByVal] at h
    cases hr : pyMaxByVal rest with
    | none => rw [hr] at h; cases h; simp
    | some q' =>
      rw [hr] at h
      have h2 : (if q'.2 ≤ p.2 then some p else some q') = some q := h
      by_cases hle : q'.2 ≤ p.2
      · rw [if_pos hle] at h2; cases h2; simp
      · rw [if_neg hle] at h2; cases h2
        exact List.mem_cons_of_mem _ (ih hr)

theorem pyMaxByVal_le :
    ∀ {l : List (String × Nat)} {q : String × Nat},
      pyMaxByVal l = some q → ∀ p ∈ l, p.2 ≤ q.2 := by
  intro l
  induction l with
  | nil => intro q h; cases h
  | cons p0 rest ih =>
    intro q h p hp
    simp only [pyMaxByVal] at h
    cases hr : pyMaxByVal rest with
    | none =>
      rw [hr] at h
      cases h
      have hnil : rest = [] := pyMaxByVal_eq_none_iff.mp hr
      subst hnil
      rcases List.mem_cons.mp hp with h1 | h1
      · rw [h1]
      · simp at h1
    | some q' =>
      rw [hr] at h
      rcases List.mem_cons.mp hp with h1 | h1
      · subst h1
        have h2 : (if q'.2 ≤ p.2 then some p else some q') = some q := h
        by_cases hle : q'.2 ≤ p.2
        · rw [if_pos hle] at h2; cases h2; exact le_refl _
        · rw [if_neg hle] at h2; cases h2; omega
      · have hle2 := ih hr p h1
        have h2 : (if q'.2 ≤ p0.2 then some p0 else some q') = some q := h
        by_cases hle : q'.2 ≤ p0.2
        · rw [if_pos hle] at h2; cases h2; omega
        · rw [if_neg hle] at h2; cases h2; exact hle2

theorem mem_scoresFor {lines : List String} {cands : List String}
    {c : String} {sc : Nat} :
    (c, sc) ∈ scoresFor lines cands ↔
      c ∈ cands ∧ candidateScore lines c = some sc := by
  simp only [scoresFor, List.mem_filterMap]
  constructor
  · rintro ⟨a, ha, hmap⟩
    cases hsc : candidateScore lines a with
    | none => rw [hsc] at hmap; cases hmap
    | some v =>
      rw [hsc] at hmap
      have hmap2 : (a, v) = (c, sc) := Option.some.inj hmap
      cases hmap2
      exact ⟨ha, hsc⟩
  · rintro ⟨hmem, hsc⟩
    exact ⟨c, hmem, by rw [hsc]; rfl⟩

theorem pyIntParse_isSome_of_intGuard {v : String} (h : intGuard v = true) :
    ∃ n, pyIntParse v = some n := by
  simp only [intGuard, pyIsDigit, Bool.or_eq_true, Bool.and_eq_true] at h
  cases hd : v.data with
  | nil =>
    rw [hd] at h
    simp at h
  | cons c rest =>
    rw [hd] at h
    simp only [pyIntParse, hd]
    by_cases hc : c = '-'
    · subst hc
      rw [if_pos rfl]
      rcases h with ⟨_, h2⟩ | h2
      · simp at h2
      · simp only [Bool.and_eq_true, decide_eq_true_eq] at h2
        rw [if_pos (by simp [h2.2.1, h2.2.2])]
        exact ⟨_, rfl⟩
    · rw [if_neg hc]
      rcases h with ⟨_, h2⟩ | h2
      · rw [if_pos h2]
        exact ⟨_, rfl⟩
      · simp [hc] at h2

/-! ## Claims -/

/-- A small concrete document used by witnesses: three named columns, one
full row and one short row. -/
def sampleDoc : CSVFile :=
  { path := "t.csv", candidates := [","], has_header := true,
    skip_empty := true, auto_cast := true, normalize_header := true,
    encoding := "utf-8", delimiter := ",", header := ["a", "b", "c"],
    rows := [[.vStr "x", .vStr "y", .vStr "z"], [.vStr "p"]] }

/-- C8: `_adjust_columns` pads a short row with empty-string cells,
truncates a long row, returns an exact-length row untouched, and always
returns a row of exactly the expected length; the spec's three concrete
examples hold. -/
theorem c8_adjust_columns (data : List PyVal) (expected : Nat) :
    (data.length < expected →
      _adjust_columns data expected =
        data ++ List.replicate (expected - data.length) (PyVal.vStr ""))
    ∧ (expected < data.length →
      _adjust_columns data expected = data.take expected)
    ∧ (data.length = expected → _adjust_columns data expected = data)
    ∧ (_adjust_columns data expected).length = expected
    ∧ _adjust_columns [PyVal.vStr "a", PyVal.vStr "b"] 4 =
        [PyVal.vStr "a", PyVal.vStr "b", PyVal.vStr "", PyVal.vStr ""]
    ∧ _adjust_columns [PyVal.vStr "a", PyVal.vStr "b", PyVal.vStr "c",
        PyVal.vStr "d"] 2 = [PyVal.vStr "a", PyVal.vStr "b"]
    ∧ _adjust_columns [PyVal.vStr "a", PyVal.vStr "b"] 2 =
        [PyVal.vStr "a", PyVal.vStr "b"] := by
  refine ⟨?_, ?_, ?_, adjust_columns_length data expected, rfl, rfl, rfl⟩
  · intro h
    simp only [_adjust_columns]
    rw [if_pos h]
  · intro h
    simp only [_adjust_columns]
    rw [if_neg (by omega), if_pos h]
  · intro h
    simp only [_adjust_columns]
    rw [if_neg (by omega), if_neg (by omega)]

/-- Witness for C8: padding a one-cell row to three columns. -/
theorem c8_adjust_columns_witness :
    _adjust_columns [PyVal.vStr "q"] 3 =
      [PyVal.vStr "q"] ++ List.replicate 2 (PyVal.vStr "") :=
  (c8_adjust_columns [PyVal.vStr "q"] 3).1 (by decide)

/-- C6: `_get_column_index` — resolving a name fails with the no-header
`ValueError` when `has_header` is false, fails with `KeyError` when the name
is absent from the header, and otherwise returns the zero-based position of
the first exact match; resolving an int returns it as-is, unchecked. -/
theorem c6_get_column_index (f : CSVFile) (s : String) (i : Int) :
    (f.has_header = false →
      _get_column_index f (.name s) = .error .valueErrorNoHeader)
    ∧ (f.has_header = true → f.header.contains s = false →
      _get_column_index f (.name s) = .error .keyError)
    ∧ (f.has_header = true → ∀ pre post, f.header = pre ++ s :: post →
      s ∉ pre → _get_column_index f (.name s) = .ok (pre.length : Int))
    ∧ _get_column_index f (.idx i) = .ok i := by
  refine ⟨?_, ?_, ?_, rfl⟩
  · intro h
    simp [_get_column_index, h]
  · intro h1 h2
    simp only [_get_column_index]
    rw [if_neg (by simp [h1]), if_pos h2]
  · intro h1 pre post hdr hnot
    have hidx := listIndexOf_append_cons s pre post hnot
    have hcont : (pre ++ s :: post).contains s = true :=
      List.elem_iff.mpr (by simp)
    simp [_get_column_index, h1, hdr, hcont, hidx]

/-- Witness for C6: resolving the middle column of the sample document. -/
theorem c6_get_column_index_witness :
    _get_column_index sampleDoc (.name "b") = .ok 1 := by
  have h := (c6_get_column_index sampleDoc "b" 0).2.2.1 rfl ["a"] ["c"]
    rfl (by decide)
  simpa using h

/-- C3: `_auto_cast` follows the strict precedence chain int → float →
bool → string on the stripped input: empty after stripping gives the empty
string, the integer guard gives an integer, otherwise a float-parseable
string gives a float, otherwise a case-insensitive true/false gives a
boolean, and otherwise the stripped string is returned with its original
casing; with the spec's five concrete round-trip examples. -/
theorem c3_auto_cast (s : String) :
    (pyStrip s = "" → _auto_cast (some s) = .vStr "")
    ∧ (∀ v, v = pyStrip s → v ≠ "" → intGuard v = true →
        ∃ n, _auto_cast (some s) = .vInt n)
    ∧ (∀ v fl, v = pyStrip s → v ≠ "" → intGuard v = false →
        pyFloatParse v = some fl → _auto_cast (some s) = .vFloat fl)
    ∧ (∀ v, v = pyStrip s → v ≠ "" → intGuard v = false →
        pyFloatParse v = none → (pyLower v = "true" ∨ pyLower v = "false") →
        _auto_cast (some s) = .vBool (decide (pyLower v = "true")))
    ∧ (∀ v, v = pyStrip s → v ≠ "" → intGuard v = false →
        pyFloatParse v = none → pyLower v ≠ "true" → pyLower v ≠ "false" →
        _auto_cast (some s) = .vStr v)
    ∧ _auto_cast (some "42") = .vInt 42
    ∧ _auto_cast (some "3.14") = .vFloat (.finite (157 / 50))
    ∧ _auto_cast (some "true") = .vBool true
    ∧ _auto_cast (some "TRUE") = .vBool true
    ∧ _auto_cast (some "") = .vStr ""
    ∧ _auto_cast (some "abc") = .vStr "abc" := by
  refine ⟨?_, ?_, ?_, ?_, ?_, rfl, ?_, rfl, rfl, rfl, rfl⟩
  · intro h
    simp [_auto_cast, h]
  · intro v hv hne hg
    subst hv
    obtain ⟨n, hn⟩ := pyIntParse_isSome_of_intGuard hg
    exact ⟨n, by simp [_auto_cast, hne, hg, hn]⟩
  · intro v fl hv hne hg hfl
    subst hv
    simp [_auto_cast, autoCastTail, hne, hg, hfl]
  · intro v hv hne hg hfl hb
    subst hv
    simp [_auto_cast, autoCastTail, hne, hg, hfl, hb]
  · intro v hv hne hg hfl hb1 hb2
    subst hv
    simp [_auto_cast, autoCastTail, hne, hg, hfl, hb1, hb2]
  · have hr : ratOfParts false ['3'] (['1'] ++ ['4']) false [] = 157 / 50 := by
      have h1 : natOfDigits ['3', '1', '4'] = 314 := rfl
      have h2 : natOfDigits ([] : List Char) = 0 := rfl
      norm_num [ratOfParts, h1, h2]
    have hcast : _auto_cast (some "3.14") =
        .vFloat (.finite (ratOfParts false ['3'] (['1'] ++ ['4']) false [])) := rfl
    rw [hcast, hr]

/-- Witness for C3: an integer with surrounding whitespace. -/
theorem c3_auto_cast_witness :
    ∃ n, _auto_cast (some " 7 ") = PyVal.vInt n :=
  (c3_auto_cast " 7 ").2.1 "7" rfl (by decide) rfl

/-- C5: filtering is pure — `filter_rows` and `filter_by_column` leave the
receiver exactly as it was (same row count and contents), and on success the
produced document carries over path, candidate list, flags, encoding,
delimiter and header from the source. -/
theorem c5_filter_pure (f : CSVFile)
    (cond : List PyVal → Nat → Except PyErr Bool)
    (cid : ColIdent) (value : PyVal) (op : String) :
    (filter_rows f cond).2 = f
    ∧ (filter_by_column f cid value op).2 = f
    ∧ (∀ d', (filter_rows f cond).1 = .ok d' →
        d'.path = f.path ∧ d'.candidates = f.candidates ∧
        d'.has_header = f.has_header ∧ d'.skip_empty = f.skip_empty ∧
        d'.auto_cast = f.auto_cast ∧ d'.normalize_header = f.normalize_header ∧
        d'.encoding = f.encoding ∧ d'.delimiter = f.delimiter ∧
        d'.header = f.header)
    ∧ (∀ d', (filter_by_column f cid value op).1 = .ok d' →
        d'.path = f.path ∧ d'.candidates = f.candidates ∧
        d'.has_header = f.has_header ∧ d'.skip_empty = f.skip_empty ∧
        d'.auto_cast = f.auto_cast ∧ d'.normalize_header = f.normalize_header ∧
        d'.encoding = f.encoding ∧ d'.delimiter = f.delimiter ∧
        d'.header = f.header) := by
  have hfr2 : (filter_rows f cond).2 = f := by
    simp only [filter_rows]
    cases filterRowsAux cond f.rows 0 <;> rfl
  have hfr1 : ∀ d', (filter_rows f cond).1 = .ok d' →
      d'.path = f.path ∧ d'.candidates = f.candidates ∧
      d'.has_header = f.has_header ∧ d'.skip_empty = f.skip_empty ∧
      d'.auto_cast = f.auto_cast ∧ d'.normalize_header = f.normalize_header ∧
      d'.encoding = f.encoding ∧ d'.delimiter = f.delimiter ∧
      d'.header = f.header := by
    intro d' h
    simp only [filter_rows] at h
    cases haux : filterRowsAux cond f.rows 0 with
    | error e => rw [haux] at h; cases h
    | ok kept =>
      rw [haux] at h
      cases h
      exact ⟨rfl, rfl, rfl, rfl, rfl, rfl, rfl, rfl, rfl⟩
  refine ⟨hfr2, ?_, hfr1, ?_⟩
  · simp only [filter_by_column]
    cases hres : _get_column_index f cid with
    | error e => rfl
    | ok ci =>
      simp only [filter_rows]
      cases filterRowsAux (fbcCondition ci value op) f.rows 0 <;> rfl
  · intro d' h
    simp only [filter_by_column] at h
    cases hres : _get_column_index f cid with
    | error e => rw [hres] at h; cases h
    | ok ci =>
      rw [hres] at h
      simp only [filter_rows] at h
      cases haux : filterRowsAux (fbcCondition ci value op) f.rows 0 with
      | error e => rw [haux] at h; cases h
      | ok kept =>
        rw [haux] at h
        cases h
        exact ⟨rfl, rfl, rfl, rfl, rfl, rfl, rfl, rfl, rfl⟩

/-- Witness for C5: an equality filter on the sample document. -/
theorem c5_filter_pure_witness :
    (filter_by_column sampleDoc (.name "a") (.vStr "x") "==").2 = sampleDoc
    ∧ (filter_by_column sampleDoc (.name "a") (.vStr "x") "==").1 =
        .ok { sampleDoc with rows := [[.vStr "x", .vStr "y", .vStr "z"]] }
    ∧ ({ sampleDoc with rows := [[.vStr "x", .vStr "y", .vStr "z"]] } :
        CSVFile).header = sampleDoc.header :=
  ⟨(c5_filter_pure sampleDoc (fun _ _ => .ok true) (.name "a") (.vStr "x")
      "==").2.1,
    rfl,
    ((c5_filter_pure sampleDoc (fun _ _ => .ok true) (.name "a") (.vStr "x")
      "==").2.2.2 _ rfl).2.2.2.2.2.2.2.2⟩

/-- C7: a row whose length does not exceed the resolved column index is
excluded by `filter_by_column` (treated as non-matching, never an error) —
every surviving row is strictly longer than the index — and a structured
triple inside `filter_multiple` whose resolved index is out of a row's range
makes that row fail the triple, so every surviving row is strictly longer
than the triple's resolved index. -/
theorem c7_short_rows_excluded (f : CSVFile) (cid : ColIdent)
    (value : PyVal) (op : String) (ci : Int) (d' : CSVFile) :
    (∀ (r : List PyVal) (i : Nat), (r.length : Int) ≤ ci →
      fbcCondition ci value op r i = .ok false)
    ∧ (∀ r : List PyVal, (r.length : Int) ≤ ci →
      _get_column_index f cid = .ok ci →
      fmTripleEval f cid value op r = .ok false)
    ∧ (_get_column_index f cid = .ok ci →
      (filter_by_column f cid value op).1 = .ok d' →
      ∀ r ∈ d'.rows, ci < (r.length : Int))
    ∧ (∀ conds : List Cond,
      Cond.triple cid value op ∈ conds →
      _get_column_index f cid = .ok ci →
      (filter_multiple f conds).1 = .ok d' →
      ∀ r ∈ d'.rows, ci < (r.length : Int)) := by
  refine ⟨?_, ?_, ?_, ?_⟩
  · intro r i hlen
    simp only [fbcCondition]
    rw [if_pos hlen]
  · intro r hlen hres
    simp only [fmTripleEval, hres]
    rw [if_pos hlen]
  · intro hres h r hr
    simp only [filter_by_column, hres] at h
    simp only [filter_rows] at h
    cases haux : filterRowsAux (fbcCondition ci value op) f.rows 0 with
    | error e => rw [haux] at h; cases h
    | ok kept =>
      rw [haux] at h
      cases h
      obtain ⟨j, hj⟩ := filterRowsAux_ok_mem haux r hr
      exact fbcCondition_true_bound hj
  · intro conds hmem hres h r hr
    simp only [filter_multiple, filter_rows] at h
    cases haux : filterRowsAux (fmCombined f conds) f.rows 0 with
    | error e => rw [haux] at h; cases h
    | ok kept =>
      rw [haux] at h
      cases h
      obtain ⟨j, hj⟩ := filterRowsAux_ok_mem haux r hr
      exact fmTripleEval_true_bound hres (fmCombined_true_of_mem hj hmem)

/-- Witness for C7: filtering on the third column excludes the short row of
the sample document. -/
theorem c7_short_rows_excluded_witness :
    ∀ r ∈ ({ sampleDoc with rows := [[.vStr "x", .vStr "y", .vStr "z"]] } :
      CSVFile).rows, (2 : Int) < (r.length : Int) :=
  (c7_short_rows_excluded sampleDoc (.name "c") (.vStr "z") "==" 2
    { sampleDoc with rows := [[.vStr "x", .vStr "y", .vStr "z"]] }).2.2.1
    rfl rfl

theorem pySetItem_int_err {row : List PyVal} {i : Int} {v : PyVal}
    (h0 : 0 ≤ i) (h : (row.length : Int) ≤ i) :
    pySetItem row i v = .error .indexError := by
  simp only [pySetItem]
  rw [if_neg (show ¬(i < 0) by omega)]
  rw [if_neg (show ¬(0 ≤ i ∧ i < (row.length : Int)) by omega)]

theorem update_row_ok_or_id (f : CSVFile) (index : Int) (nd : NewData) :
    (update_row f index nd).1 = .ok () ∨ (update_row f index nd).2 = f := by
  simp only [update_row]
  repeat' split
  all_goals first | (left; rfl) | (right; rfl)

/-- C10: `update_row` is atomic on failure — whenever it raises (bad row
index, mixed key types, unsupported `new_data` type, or an index error while
applying a field map), the document is left exactly as it was, because all
edits are built on a copy and assigned back only on success. -/
theorem c10_update_row_atomic (f : CSVFile) (index : Int) (nd : NewData)
    (e : PyErr) (h : (update_row f index nd).1 = .error e) :
    (update_row f index nd).2 = f := by
  rcases update_row_ok_or_id f index nd with hok | hid
  · rw [hok] at h; cases h
  · exact hid

/-- Witness for C10: an out-of-range row index leaves the sample document
unchanged. -/
theorem c10_update_row_atomic_witness :
    (update_row sampleDoc 5 (.dlist [PyVal.vStr "q"])).2 = sampleDoc :=
  c10_update_row_atomic sampleDoc 5 (.dlist [PyVal.vStr "q"])
    .indexError rfl

/-- C1 (divergence from the claim): for every valid row index and every int
column identifier at or beyond the expected column count, `update_cell`
raises `IndexError` instead of setting the cell: the in-place extension is
truncated back to the expected length by `_adjust_columns`, so the final
assignment `rows[row_index][col_index] = value` is always out of range. -/
theorem c1_update_cell_index_error (f : CSVFile) (ri ci : Int) (v : PyVal)
    (h0 : 0 ≤ ri) (h1 : ri < (f.rows.length : Int))
    (h2 : ((_get_expected_columns_count f : Nat) : Int) ≤ ci) :
    (update_cell f ri (.idx ci) v).1 = .error .indexError := by
  have hexp : (0 : Int) ≤ (_get_expected_columns_count f : Int) := by omega
  simp only [update_cell]
  rw [if_neg (by omega)]
  rw [if_pos h2]
  rw [pySetItem_int_err (by omega)
    (by rw [adjust_columns_length]; omega)]

/-- Witness for C1's divergence: updating column 3 of a three-column row. -/
theorem c1_update_cell_index_error_witness :
    (update_cell sampleDoc 0 (.idx 3) (PyVal.vStr "V")).1 =
      .error .indexError :=
  c1_update_cell_index_error sampleDoc 0 3 (PyVal.vStr "V")
    (by decide) (by decide) (by decide)

theorem pyGetItem_ok {row : List PyVal} {i : Int} (h0 : 0 ≤ i)
    (h : i < (row.length : Int)) :
    pyGetItem row i = .ok (row.getD i.toNat .vNone) := by
  simp only [pyGetItem]
  rw [if_neg (show ¬(i < 0) by omega)]
  rw [if_pos ⟨h0, h⟩]

/-- The operator tags accepted by `filter_by_column`. -/
def supportedOps : List String :=
  ["==", "!=", ">", "<", ">=", "<=", "in", "not in", "contains",
   "startswith", "endswith"]

theorem fbc_unknown_error {ci : Int} {value : PyVal} {op : String}
    (hop : op ∉ supportedOps) (hci : 0 ≤ ci) :
    ∀ {rows : List (List PyVal)} {i : Nat},
      (∃ r ∈ rows, ci < (r.length : Int)) →
      filterRowsAux (fbcCondition ci value op) rows i =
        .error .valueErrorUnsupportedOp := by
  simp only [supportedOps, List.mem_cons, List.mem_singleton, not_or] at hop
  obtain ⟨hq1, hq2, hq3, hq4, hq5, hq6, hq7, hq8, hq9, hq10, hq11⟩ := hop
  intro rows
  induction rows with
  | nil =>
    intro i hex
    simp at hex
  | cons r0 rs ih =>
    intro i hex
    by_cases hlen : (r0.length : Int) ≤ ci
    · have hc : fbcCondition ci value op r0 i = .ok false := by
        simp only [fbcCondition]
        rw [if_pos hlen]
      have hex2 : ∃ r ∈ rs, ci < (r.length : Int) := by
        rcases hex with ⟨r, hr, hlt⟩
        rcases List.mem_cons.mp hr with h1 | h1
        · subst h1; omega
        · exact ⟨r, h1, hlt⟩
      simp only [filterRowsAux, hc, ih hex2]
    · have hc : fbcCondition ci value op r0 i =
          .error .valueErrorUnsupportedOp := by
        simp only [fbcCondition]
        rw [if_neg hlen]
        rw [pyGetItem_ok hci (by omega)]
        simp [hq1, hq2, hq3, hq4, hq5, hq6, hq7, hq8, hq9, hq10, hq11]
      simp only [filterRowsAux, hc]

theorem fm_unknown_silent {f : CSVFile} {cid : ColIdent} {value : PyVal}
    {op : String} {ci : Int} (hop : op ∉ supportedOps)
    (hres : _get_column_index f cid = .ok ci) (hci : 0 ≤ ci) :
    ∀ (rows : List (List PyVal)) (i : Nat),
      filterRowsAux (fmCombined f [Cond.triple cid value op]) rows i =
        .ok (rows.filter (fun r => decide (ci < (r.length : Int)))) := by
  simp only [supportedOps, List.mem_cons, List.mem_singleton, not_or] at hop
  obtain ⟨hq1, hq2, hq3, hq4, hq5, hq6, hq7, hq8, hq9, _, _⟩ := hop
  have hcond : ∀ (r : List PyVal) (i : Nat),
      fmCombined f [Cond.triple cid value op] r i =
        .ok (decide (ci < (r.length : Int))) := by
    intro r i
    by_cases hlen : (r.length : Int) ≤ ci
    · have : fmTripleEval f cid value op r = .ok false := by
        simp only [fmTripleEval, hres]
        rw [if_pos hlen]
      simp only [fmCombined, this]
      simp only [decide_eq_false (by omega : ¬(ci < (r.length : Int)))]
    · have : fmTripleEval f cid value op r = .ok true := by
        simp only [fmTripleEval, hres]
        rw [if_neg hlen]
        rw [pyGetItem_ok hci (by omega)]
        simp [hq1, hq2, hq3, hq4, hq5, hq6, hq7, hq8, hq9]
      simp only [fmCombined, this]
      rw [decide_eq_true (show ci < (r.length : Int) by omega)]
  intro rows
  induction rows with
  | nil => intro i; rfl
  | cons r0 rs ih =>
    intro i
    simp only [filterRowsAux, hcond r0 i, ih (i + 1), List.filter_cons]

/-- C2 (amended): an operator tag outside the supported set makes
`filter_by_column` fail with the unsupported-operator `ValueError` as soon
as any row reaches the comparison; but in `filter_multiple` the structured
triple's operator chain has no final else, so an unknown tag is silently
accepted — the filter succeeds and keeps exactly the rows long enough for
the resolved index, never consulting the tag. -/
theorem c2_unknown_operator (f : CSVFile) (cid : ColIdent) (value : PyVal)
    (op : String) (ci : Int) (hop : op ∉ supportedOps)
    (hres : _get_column_index f cid = .ok ci) (hci : 0 ≤ ci) :
    ((∃ r ∈ f.rows, ci < (r.length : Int)) →
      (filter_by_column f cid value op).1 = .error .valueErrorUnsupportedOp)
    ∧ (filter_multiple f [.triple cid value op]).1 =
        .ok { f with rows :=
          f.rows.filter (fun r => decide (ci < (r.length : Int))) } := by
  constructor
  · intro hex
    simp only [filter_by_column, hres, filter_rows,
      fbc_unknown_error hop hci hex]
  · simp only [filter_multiple, filter_rows,
      fm_unknown_silent hop hres hci f.rows 0]

/-- C2 counterexample: on the sample document a structured triple with the
unknown operator tag "between" does not make `filter_multiple` fail with the
unsupported-operator error — the call succeeds and keeps both rows whose
length exceeds the resolved index. -/
theorem c2_unknown_operator_counterexample :
    (filter_multiple sampleDoc
        [.triple (.idx 0) (.vStr "x") "between"]).1 =
      .ok { sampleDoc with
        rows := [[.vStr "x", .vStr "y", .vStr "z"], [.vStr "p"]] } := rfl

/-- Witness for C2 (amended): the same unknown tag does fail in
`filter_by_column`. -/
theorem c2_unknown_operator_witness :
    (filter_by_column sampleDoc (.idx 0) (.vStr "x") "between").1 =
      .error .valueErrorUnsupportedOp :=
  (c2_unknown_operator sampleDoc (.idx 0) (.vStr "x") "between" 0
      (by decide) rfl (by decide)).1
    ⟨[.vStr "x", .vStr "y", .vStr "z"], List.mem_cons_self _ _, by decide⟩

theorem nameKeyApply_length {header : List String} :
    ∀ {items : List (DKey × PyVal)} {row row' : List PyVal},
      nameKeyApply header row items = .ok row' → row'.length = row.length := by
  intro items
  induction items with
  | nil =>
    intro row row' h
    cases h
    rfl
  | cons kv rest ih =>
    intro row row' h
    obtain ⟨k, v⟩ := kv
    cases k with
    | ik j => exact ih h
    | sk s =>
      simp only [nameKeyApply] at h
      by_cases hc : header.contains s = true
      · rw [if_pos hc] at h
        cases hio : listIndexOf header s with
        | none => rw [hio] at h; exact ih h
        | some ci =>
          rw [hio] at h
          have h2 : (match pySetItem row (ci : Int) v with
              | Except.ok row2 => nameKeyApply header row2 rest
              | Except.error e => Except.error e) = Except.ok row' := h
          cases hset : pySetItem row (ci : Int) v with
          | error e => rw [hset] at h2; cases h2
          | ok row2 =>
            rw [hset] at h2
            rw [ih h2, pySetItem_length hset]
      · rw [if_neg hc] at h
        exact ih h

theorem nameKeyApply_err {header : List String} :
    ∀ {items : List (DKey × PyVal)} {row : List PyVal},
      (∃ s v ci, (DKey.sk s, v) ∈ items ∧ listIndexOf header s = some ci ∧
        row.length ≤ ci) →
      nameKeyApply header row items = .error .indexError := by
  intro items
  induction items with
  | nil =>
    intro row hex
    obtain ⟨s, v, ci, hmem, _, _⟩ := hex
    simp at hmem
  | cons kv rest ih =>
    intro row hex
    obtain ⟨s, v, ci, hmem, hio, hord⟩ := hex
    obtain ⟨k0, v0⟩ := kv
    cases k0 with
    | ik j =>
      have hmem2 : (DKey.sk s, v) ∈ rest := by
        rcases List.mem_cons.mp hmem with h1 | h1
        · cases h1
        · exact h1
      exact ih ⟨s, v, ci, hmem2, hio, hord⟩
    | sk s0 =>
      simp only [nameKeyApply]
      by_cases hc : header.contains s0 = true
      · rw [if_pos hc]
        have hs0 : s0 ∈ header := List.elem_iff.mp hc
        obtain ⟨ci0, hci0⟩ := listIndexOf_isSome_of_mem hs0
        rw [hci0]
        show (match pySetItem row (ci0 : Int) v0 with
            | Except.ok row2 => nameKeyApply header row2 rest
            | Except.error e => Except.error e) = Except.error PyErr.indexError
        by_cases hord0 : row.length ≤ ci0
        · rw [pySetItem_nat_err hord0]
        · have hlt : ci0 < row.length := by omega
          rw [pySetItem_nat_ok hlt]
          have hmem2 : (DKey.sk s, v) ∈ rest := by
            rcases List.mem_cons.mp hmem with h1 | h1
            · exfalso
              obtain ⟨hs, hv⟩ := Prod.mk.injEq .. ▸ h1
              have : s = s0 := by cases hs; rfl
              subst this
              rw [hio] at hci0
              cases hci0
              omega
            · exact h1
          exact ih ⟨s, v, ci, hmem2, hio, by
            rw [List.length_set]; exact hord⟩
      · rw [if_neg hc]
        have hmem2 : (DKey.sk s, v) ∈ rest := by
          rcases List.mem_cons.mp hmem with h1 | h1
          · exfalso
            have hs : s = s0 := by
              have := congrArg Prod.fst h1
              simpa using this
            subst hs
            have := List.elem_iff.mpr (mem_of_listIndexOf hio)
            exact hc this
          · exact h1
        exact ih ⟨s, v, ci, hmem2, hio, hord⟩

theorem nameKeyApply_ok_bound {header : List String} :
    ∀ {items : List (DKey × PyVal)} {row row' : List PyVal},
      nameKeyApply header row items = .ok row' →
      ∀ {s : String} {v : PyVal} {ci : Nat},
        (DKey.sk s, v) ∈ items → listIndexOf header s = some ci →
        ci < row.length := by
  intro items
  induction items with
  | nil =>
    intro row row' _ s v ci hmem _
    simp at hmem
  | cons kv rest ih =>
    intro row row' h s v ci hmem hio
    obtain ⟨k0, v0⟩ := kv
    cases k0 with
    | ik j =>
      have hmem2 : (DKey.sk s, v) ∈ rest := by
        rcases List.mem_cons.mp hmem with h1 | h1
        · cases h1
        · exact h1
      exact ih h hmem2 hio
    | sk s0 =>
      simp only [nameKeyApply] at h
      by_cases hc : header.contains s0 = true
      · rw [if_pos hc] at h
        cases hio0 : listIndexOf header s0 with
        | none =>
          exfalso
          have hs0 : s0 ∈ header := List.elem_iff.mp hc
          obtain ⟨ci0, hci0⟩ := listIndexOf_isSome_of_mem hs0
          rw [hci0] at hio0
          cases hio0
        | some ci0 =>
          rw [hio0] at h
          have h2 : (match pySetItem row (ci0 : Int) v0 with
              | Except.ok row2 => nameKeyApply header row2 rest
              | Except.error e => Except.error e) = Except.ok row' := h
          cases hset : pySetItem row (ci0 : Int) v0 with
          | error e => rw [hset] at h2; cases h2
          | ok row2 =>
            rw [hset] at h2
            have hlen : row2.length = row.length := pySetItem_length hset
            rcases List.mem_cons.mp hmem with h1 | h1
            · have hs : s = s0 := by
                have := congrArg Prod.fst h1
                simpa using this
              subst hs
              rw [hio] at hio0
              cases hio0
              by_contra hge
              have : row.length ≤ ci := by omega
              rw [pySetItem_nat_err this] at hset
              cases hset
            · have := ih h2 h1 hio
              omega
      · rw [if_neg hc] at h
        have hmem2 : (DKey.sk s, v) ∈ rest := by
          rcases List.mem_cons.mp hmem with h1 | h1
          · exfalso
            have hs : s = s0 := by
              have := congrArg Prod.fst h1
              simpa using this
            subst hs
            exact hc (List.elem_iff.mpr (mem_of_listIndexOf hio))
          · exact h1
        exact ih h hmem2 hio

/-- C9: `update_row` with a name-keyed field map performs no extension or
reconciliation of the target row — a matched name resolving at or beyond the
stored row's length raises `IndexError` (leaving the document unchanged),
the operation succeeds only when every matched name resolves within the
row's length, and a successful update preserves the stored row's length. -/
theorem c9_update_row_name_keyed (f : CSVFile) (index : Int)
    (items : List (DKey × PyVal))
    (hh : f.has_header = true) (h0 : 0 ≤ index)
    (h1 : index < (f.rows.length : Int))
    (hnoint : items.any (fun kv => isIk kv.1) = false) :
    ((∃ s v ci, (DKey.sk s, v) ∈ items ∧ listIndexOf f.header s = some ci ∧
        (f.rows.getD index.toNat []).length ≤ ci) →
      update_row f index (.dmap items) = (.error .indexError, f))
    ∧ (∀ g, update_row f index (.dmap items) = (.ok (), g) →
        (∀ s v ci, (DKey.sk s, v) ∈ items → listIndexOf f.header s = some ci →
          ci < (f.rows.getD index.toNat []).length)
        ∧ (g.rows.getD index.toNat []).length =
            (f.rows.getD index.toNat []).length) := by
  have hguard : ¬(index < 0 ∨ (f.rows.length : Int) ≤ index) := by omega
  have hmix : ¬((items.any fun kv => isIk kv.1) = true ∧
      (items.any fun kv => isSk kv.1) = true) := by
    rw [hnoint]; simp
  constructor
  · intro hex
    have herr : nameKeyApply f.header (f.rows.getD index.toNat []) items =
        .error .indexError := nameKeyApply_err hex
    simp only [update_row]
    rw [if_neg hguard]
    rw [hh]
    simp only [if_true]
    rw [if_neg hmix]
    rw [if_neg (by rw [hnoint]; simp)]
    rw [herr]
  · intro g hg
    simp only [update_row] at hg
    rw [if_neg hguard] at hg
    rw [hh] at hg
    simp only [if_true] at hg
    rw [if_neg hmix] at hg
    rw [if_neg (by rw [hnoint]; simp)] at hg
    cases happ : nameKeyApply f.header (f.rows.getD index.toNat []) items with
    | error e =>
      rw [happ] at hg
      cases hg
    | ok updated =>
      rw [happ] at hg
      have hrows : g.rows = f.rows.set index.toNat updated := by
        have h3 := congrArg Prod.snd hg
        have h4 := congrArg CSVFile.rows h3
        simpa using h4.symm
      constructor
      · intro s v ci hmem hio
        exact nameKeyApply_ok_bound happ hmem hio
      · rw [hrows]
        have hidx : index.toNat < f.rows.length := by omega
        rw [getD_set_self f.rows index.toNat updated [] hidx]
        exact nameKeyApply_length happ

/-- Witness for C9: updating column name "c" (resolved index 2) on the
sample document's short second row (length 1) raises `IndexError` and leaves
the document unchanged. -/
theorem c9_update_row_name_keyed_witness :
    update_row sampleDoc 1 (.dmap [(DKey.sk "c", PyVal.vStr "C")]) =
      (.error .indexError, sampleDoc) :=
  (c9_update_row_name_keyed sampleDoc 1 [(DKey.sk "c", PyVal.vStr "C")]
      rfl (by decide) (by decide) rfl).1
    ⟨"c", PyVal.vStr "C", 2, List.mem_cons_self _ _, rfl, by decide⟩

theorem scoresFor_cons_none {lines : List String} {c : String}
    {cs : List String} (h : candidateScore lines c = none) :
    scoresFor lines (c :: cs) = scoresFor lines cs := by
  simp [scoresFor, List.filterMap_cons, h]

theorem scoresFor_cons_some {lines : List String} {c : String}
    {cs : List String} {sc : Nat} (h : candidateScore lines c = some sc) :
    scoresFor lines (c :: cs) = (c, sc) :: scoresFor lines cs := by
  simp [scoresFor, List.filterMap_cons, h]

theorem pyMaxByVal_cons_none {p : String × Nat} {rest : List (String × Nat)}
    (h : pyMaxByVal rest = none) : pyMaxByVal (p :: rest) = some p := by
  simp only [pyMaxByVal, h]

theorem pyMaxByVal_cons_some_ge {p q : String × Nat}
    {rest : List (String × Nat)} (h : pyMaxByVal rest = some q)
    (hle : q.2 ≤ p.2) : pyMaxByVal (p :: rest) = some p := by
  simp only [pyMaxByVal, h]
  rw [if_pos hle]

theorem pyMaxByVal_cons_some_lt {p q : String × Nat}
    {rest : List (String × Nat)} (h : pyMaxByVal rest = some q)
    (hlt : ¬q.2 ≤ p.2) : pyMaxByVal (p :: rest) = some q := by
  simp only [pyMaxByVal, h]
  rw [if_neg hlt]

/-- C4: `_detect_delimiter` is a pure function of the decoded lines and the
candidate list (hence deterministic); when no candidate produces a score it
returns a comma, and otherwise it returns a candidate whose score — the
frequency of the most common non-empty record length — is maximal, with
every strictly earlier candidate in list order scoring strictly less (ties
break in favour of the earliest candidate). -/
theorem c4_detect_delimiter (lines : List String) (cands : List String) :
    ((∀ c ∈ cands, candidateScore lines c = none) →
      _detect_delimiter lines cands = ",")
    ∧ ((∃ c ∈ cands, candidateScore lines c ≠ none) →
      ∃ pre post sd,
        cands = pre ++ _detect_delimiter lines cands :: post
        ∧ candidateScore lines (_detect_delimiter lines cands) = some sd
        ∧ (∀ c ∈ cands, ∀ sc, candidateScore lines c = some sc → sc ≤ sd)
        ∧ (∀ c ∈ pre, ∀ sc, candidateScore lines c = some sc → sc < sd)) := by
  constructor
  · intro hall
    have hnil : scoresFor lines cands = [] := by
      simp only [scoresFor, List.filterMap_eq_nil_iff]
      intro c hc
      rw [hall c hc]
      rfl
    simp only [_detect_delimiter, hnil]
    rfl
  · induction cands with
    | nil =>
      intro hex
      simp at hex
    | cons c cs ih =>
      intro hex
      cases hsc : candidateScore lines c with
      | none =>
        have hdet : _detect_delimiter lines (c :: cs) =
            _detect_delimiter lines cs := by
          simp only [_detect_delimiter, scoresFor_cons_none hsc]
        have hex2 : ∃ c' ∈ cs, candidateScore lines c' ≠ none := by
          rcases hex with ⟨c', hc', hne⟩
          rcases List.mem_cons.mp hc' with h1 | h1
          · subst h1; exact absurd hsc hne
          · exact ⟨c', h1, hne⟩
        obtain ⟨pre, post, sd, hdec, hscd, hmax, hstrict⟩ := ih hex2
        refine ⟨c :: pre, post, sd, ?_, ?_, ?_, ?_⟩
        · rw [hdet, List.cons_append, ← hdec]
        · rw [hdet]; exact hscd
        · intro c' hc' sc hsc'
          rcases List.mem_cons.mp hc' with h1 | h1
          · subst h1; rw [hsc] at hsc'; cases hsc'
          · exact hmax c' h1 sc hsc'
        · intro c' hc' sc hsc'
          rcases List.mem_cons.mp hc' with h1 | h1
          · subst h1; rw [hsc] at hsc'; cases hsc'
          · exact hstrict c' h1 sc hsc'
      | some sc =>
        cases hrest : pyMaxByVal (scoresFor lines cs) with
        | none =>
          have hnil : scoresFor lines cs = [] :=
            pyMaxByVal_eq_none_iff.mp hrest
          have hdet : _detect_delimiter lines (c :: cs) = c := by
            simp only [_detect_delimiter, scoresFor_cons_some hsc,
              pyMaxByVal_cons_none hrest]
          refine ⟨[], cs, sc, by rw [hdet]; rfl, by rw [hdet]; exact hsc,
            ?_, by intro c' hc'; simp at hc'⟩
          intro c' hc' sc' hsc'
          rcases List.mem_cons.mp hc' with h1 | h1
          · subst h1; rw [hsc] at hsc'; cases hsc'; exact le_refl _
          · exfalso
            have : (c', sc') ∈ scoresFor lines cs :=
              mem_scoresFor.mpr ⟨h1, hsc'⟩
            rw [hnil] at this
            simp at this
        | some q =>
          by_cases hle : q.2 ≤ sc
          · have hdet : _detect_delimiter lines (c :: cs) = c := by
              simp only [_detect_delimiter, scoresFor_cons_some hsc,
                @pyMaxByVal_cons_some_ge (c, sc) q (scoresFor lines cs)
                  hrest hle]
            refine ⟨[], cs, sc, by rw [hdet]; rfl, by rw [hdet]; exact hsc,
              ?_, by intro c' hc'; simp at hc'⟩
            intro c' hc' sc' hsc'
            rcases List.mem_cons.mp hc' with h1 | h1
            · subst h1; rw [hsc] at hsc'; cases hsc'; exact le_refl _
            · have hmem : (c', sc') ∈ scoresFor lines cs :=
                mem_scoresFor.mpr ⟨h1, hsc'⟩
              have := pyMaxByVal_le hrest _ hmem
              omega
          · have hdet : _detect_delimiter lines (c :: cs) = q.1 := by
              simp only [_detect_delimiter, scoresFor_cons_some hsc,
                @pyMaxByVal_cons_some_lt (c, sc) q (scoresFor lines cs)
                  hrest hle]
            have hdet2 : _detect_delimiter lines cs = q.1 := by
              simp only [_detect_delimiter, hrest]
            have hqmem : (q.1, q.2) ∈ scoresFor lines cs :=
              pyMaxByVal_mem hrest
            have hqscore : candidateScore lines q.1 = some q.2 :=
              (mem_scoresFor.mp hqmem).2
            have hex2 : ∃ c' ∈ cs, candidateScore lines c' ≠ none :=
              ⟨q.1, (mem_scoresFor.mp hqmem).1, by rw [hqscore]; simp⟩
            obtain ⟨pre, post, sd, hdec, hscd, hmax, hstrict⟩ := ih hex2
            have hsd : sd = q.2 := by
              rw [hdet2] at hscd
              rw [hqscore] at hscd
              exact (Option.some.inj hscd).symm
            refine ⟨c :: pre, post, sd, ?_, ?_, ?_, ?_⟩
            · rw [hdet, List.cons_append]
              rw [hdet2] at hdec
              rw [← hdec]
            · rw [hdet, ← hdet2]; exact hscd
            · intro c' hc' sc' hsc'
              rcases List.mem_cons.mp hc' with h1 | h1
              · subst h1
                rw [hsc] at hsc'
                cases hsc'
                omega
              · exact hmax c' h1 sc' hsc'
            · intro c' hc' sc' hsc'
              rcases List.mem_cons.mp hc' with h1 | h1
              · subst h1
                rw [hsc] at hsc'
                cases hsc'
                omega
              · exact hstrict c' h1 sc' hsc'

/-- Witness for C4: scoring lines where the semicolon is the consistent
delimiter picks it over the earlier comma candidate, and an empty line list
falls back to the comma. -/
theorem c4_detect_delimiter_witness :
    _detect_delimiter [] [","] = ","
    ∧ ∃ pre post sd,
        ([",", ";"] : List String) =
          pre ++ _detect_delimiter ["a;b", "c;d"] [",", ";"] :: post
        ∧ candidateScore ["a;b", "c;d"]
            (_detect_delimiter ["a;b", "c;d"] [",", ";"]) = some sd
        ∧ (∀ c ∈ ([",", ";"] : List String), ∀ sc,
            candidateScore ["a;b", "c;d"] c = some sc → sc ≤ sd)
        ∧ (∀ c ∈ pre, ∀ sc, candidateScore ["a;b", "c;d"] c = some sc →
            sc < sd) :=
  ⟨(c4_detect_delimiter [] [","]).1
      (by intro c hc; rw [List.mem_singleton] at hc; subst hc; rfl),
    (c4_detect_delimiter ["a;b", "c;d"] [",", ";"]).2
      ⟨";", by simp, by decide⟩⟩

end Csvfile
